import Mathlib

/-!
Verification of the asciinema PTY supervisor (src/pty.rs) and the record
subcommand's file handling (src/main.rs), as a shallow embedding in Lean.

Kernel-level I/O is modelled by finite traces of syscall outcomes: a read
trace is the sequence of results the kernel returns for successive
`read(2)` calls during one drain, and similarly for writes.  The reactor
loop of `copy` is modelled as a step machine over its mutable state
(the two pending byte queues and the `flush` flag), consuming a trace of
poll outcomes, each carrying the mio events of that iteration, and
emitting the observable side effects (recorder callbacks, interest
re-registrations, ioctls, signals sent) in program order.
-/

namespace Pty

/-- Kind of an `io::Error` returned by a read, write or poll call. The Rust
code matches these with `Err(_)` in `read_all` / `write_all` (the kind is
ignored) and inspects the kind only after `poll.poll`. -/
inductive ErrKind
  | wouldBlock
  | interrupted
  | fatal
  deriving DecidableEq, Repr

/-- Outcome of one kernel `read` into the scratch buffer: `ok bytes` is
`Ok(n)` with the `n` bytes that landed in the buffer (so `ok []` is
`Ok(0)`), `err k` is `Err(e)` with `e.kind() = k`. -/
inductive ReadResult
  | ok (bytes : List Nat)
  | err (k : ErrKind)
  deriving DecidableEq, Repr

/-- Outcome of one kernel `write` from the front of the queue: `ok n` is
`Ok(n)` (`n` bytes accepted), `err k` is `Err(e)`. -/
inductive WriteResult
  | ok (n : Nat)
  | err (k : ErrKind)
  deriving DecidableEq, Repr

/-- `fn read_all` of src/pty.rs: loop reading from `source`; `Ok(0)` does
nothing and the loop continues; `Ok(n)` appends the read bytes to `out`
and adds `n` to the running total; any `Err(_)` breaks the loop.  The
function is modelled over the finite trace of kernel read outcomes; an
exhausted trace ends the drain (the real loop only returns at an error,
so a meaningful trace ends with `err`). Returns `Ok(read)`, i.e. the
total together with the updated `out` vector — note no error is ever
propagated. -/
def read_all : List ReadResult → Nat → List Nat → Nat × List Nat
  | [], read, out => (read, out)
  | .ok [] :: rest, read, out => read_all rest read out
  | .ok bs :: rest, read, out => read_all rest (read + bs.length) (out ++ bs)
  | .err _ :: _, read, out => (read, out)

/-- The bytes of the successful reads performed by one drain: every `ok`
entry before the first `err`, concatenated in order. -/
def successBytes : List ReadResult → List Nat
  | [] => []
  | .ok bs :: rest => bs ++ successBytes rest
  | .err _ :: _ => []

/-- Modelled from the spec: the claimed behaviour of `read_all`, which
"terminates as soon as a read returns zero or any error".  Differs from
the source's `read_all` exactly in the `ok []` (zero-byte read) arm. -/
def read_all_spec : List ReadResult → Nat → List Nat → Nat × List Nat
  | [], read, out => (read, out)
  | .ok [] :: _, read, out => (read, out)
  | .ok bs :: rest, read, out => read_all_spec rest (read + bs.length) (out ++ bs)
  | .err _ :: _, read, out => (read, out)

/-- The inner loop of `fn write_all` of src/pty.rs: `buf` is the slice
`&data[..]` still to write.  `Ok(0)` does nothing and the loop continues;
`Ok(n)` advances the slice by `n` (`buf = &buf[n..]`, a panic — modelled
as `none` — if `n` exceeds the slice length) and breaks once the slice is
empty; any `Err(_)` breaks.  An exhausted trace ends the loop (the real
loop only exits at an error or an empty slice). -/
def write_go : List WriteResult → List Nat → Option (List Nat)
  | [], buf => some buf
  | .ok 0 :: rest, buf => write_go rest buf
  | .ok (n + 1) :: rest, buf =>
    if n + 1 ≤ buf.length then
      if (buf.drop (n + 1)).isEmpty then some (buf.drop (n + 1))
      else write_go rest (buf.drop (n + 1))
    else none
  | .err _ :: _, buf => some buf

/-- `fn write_all` of src/pty.rs: run the write loop, then compact `data`
to the unwritten remainder: if nothing is left, `data.clear()`; otherwise
`data.rotate_left(data.len() - left); data.truncate(left)`.  Returns
`Ok(left)` together with the compacted vector; `none` models the slice
panic. No error is ever propagated. -/
def write_all (trace : List WriteResult) (data : List Nat) : Option (Nat × List Nat) :=
  match write_go trace data with
  | none => none
  | some buf =>
    if buf.length = 0 then some (0, [])
    else some (buf.length, (data.rotate (data.length - buf.length)).take buf.length)

/-- `fn get_tty_size` of src/pty.rs: start from the `(80, 24)` sentinel,
let the `TIOCGWINSZ` ioctl overwrite it when it succeeds (`query = some
(cols, rows)`), then apply the user's cols/rows overrides.  Sizes are
`(cols, rows)` pairs, matching the `(ws_col, ws_row)` order handed to the
recorder. -/
def get_tty_size (query : Option (Nat × Nat)) (ov : Option Nat × Option Nat) : Nat × Nat :=
  let base := match query with
    | some sz => sz
    | none => (80, 24)
  (ov.1.getD base.1, ov.2.getD base.2)

/-- Observable side effect emitted by the `copy` loop, in program order:
recorder callbacks, mio interest changes (`true` = READABLE|WRITABLE,
`false` = READABLE only), deregistrations, the `TIOCSWINSZ` ioctl and the
SIGTERM sent to the child. -/
inductive Effect
  | recOutput (data : List Nat)
  | recInput (data : List Nat)
  | recResize (size : Nat × Nat)
  | setPtySize (size : Nat × Nat)
  | reregTty (writable : Bool)
  | reregMaster (writable : Bool)
  | deregMaster
  | deregTty
  | killChildTerm
  deriving DecidableEq, Repr

/-- A pending signal drained from the signal stream.  A `winch` carries
the result the `TIOCGWINSZ` ioctl would produce at that moment (`none` if
the ioctl fails). -/
inductive Sig
  | winch (query : Option (Nat × Nat))
  | int
  | term
  | quit
  | hup
  | other
  deriving DecidableEq, Repr

/-- A mio event for the MASTER token, with the kernel traces consumed by
the actions it triggers. -/
structure MasterEvent where
  readable : Bool
  readTrace : List ReadResult
  writable : Bool
  writeTrace : List WriteResult
  readClosed : Bool
  deriving DecidableEq, Repr

/-- A mio event for the TTY token. -/
structure TtyEvent where
  writable : Bool
  writeTrace : List WriteResult
  readable : Bool
  readTrace : List ReadResult
  readClosed : Bool
  deriving DecidableEq, Repr

/-- One event returned by a poll iteration, dispatched on its token. -/
inductive Event
  | master (e : MasterEvent)
  | tty (e : TtyEvent)
  | signal (sigs : List Sig)
  deriving DecidableEq, Repr

/-- The mutable state of the `copy` loop: `input` is `pending_to_master`
(bytes from the TTY), `output` is `pending_to_tty` (bytes from the
master), `flush` the flag set when the master closes with bytes still
queued for the TTY. -/
structure CopyState where
  input : List Nat
  output : List Nat
  flush : Bool
  deriving DecidableEq, Repr

/-- The state at entry of the loop: both queues empty, `flush = false`. -/
def initCopyState : CopyState := ⟨[], [], false⟩

/-- Which `return Ok(())` statement of `copy` ended the loop. -/
inductive ExitReason
  | masterClosed
  | ttyFlushed
  | ttyClosed
  | fatalSignal
  deriving DecidableEq, Repr

/-- Result of processing one event (or one batch): the loop continues
with a new state, returns, or hits the slice panic in `write_all`. -/
inductive StepResult
  | cont (s : CopyState)
  | done (s : CopyState) (r : ExitReason)
  | crashed
  deriving DecidableEq, Repr

/-- The `event.is_readable()` arm of the MASTER case: remember the queue
length as `offset`, drain the master into `output` via `read_all`, and if
anything was read hand exactly the newly appended slice to
`recorder.output` and re-register the TTY for READABLE|WRITABLE. -/
def masterReadable (s : CopyState) (e : MasterEvent) : List Effect × CopyState :=
  if e.readable then
    let r := read_all e.readTrace 0 s.output
    if 0 < r.1 then
      ([.recOutput (r.2.drop s.output.length), .reregTty true], ⟨s.input, r.2, s.flush⟩)
    else ([], ⟨s.input, r.2, s.flush⟩)
  else ([], s)

/-- The `event.is_writable()` arm of the MASTER case: drain `input` into
the master via `write_all`; when the queue empties, drop WRITABLE
interest from the MASTER registration.  `none` models the panic. -/
def masterWritable (s : CopyState) (e : MasterEvent) : List Effect × Option CopyState :=
  if e.writable then
    match write_all e.writeTrace s.input with
    | none => ([], none)
    | some (left, rest) =>
      if left = 0 then ([.reregMaster false], some ⟨rest, s.output, s.flush⟩)
      else ([], some ⟨rest, s.output, s.flush⟩)
  else ([], some s)

/-- The MASTER arm of the dispatch: readable, then writable, then
`is_read_closed()`, which deregisters the master and either returns at
once (queue empty) or sets `flush`. -/
def stepMaster (s : CopyState) (e : MasterEvent) : List Effect × StepResult :=
  let p1 := masterReadable s e
  match masterWritable p1.2 e with
  | (effs2, none) => (p1.1 ++ effs2, .crashed)
  | (effs2, some s2) =>
    if e.readClosed then
      if s2.output.isEmpty then
        (p1.1 ++ effs2 ++ [.deregMaster], .done s2 .masterClosed)
      else
        (p1.1 ++ effs2 ++ [.deregMaster], .cont ⟨s2.input, s2.output, true⟩)
    else (p1.1 ++ effs2, .cont s2)

/-- The `event.is_writable()` arm of the TTY case: drain `output` into
the TTY; when it empties, return at once if `flush` is set, otherwise
drop WRITABLE interest from the TTY registration. -/
def ttyWritable (s : CopyState) (e : TtyEvent) : List Effect × StepResult :=
  if e.writable then
    match write_all e.writeTrace s.output with
    | none => ([], .crashed)
    | some (left, rest) =>
      if left = 0 then
        if s.flush then ([], .done ⟨s.input, rest, s.flush⟩ .ttyFlushed)
        else ([.reregTty false], .cont ⟨s.input, rest, s.flush⟩)
      else ([], .cont ⟨s.input, rest, s.flush⟩)
  else ([], .cont s)

/-- The `event.is_readable()` arm of the TTY case: drain the TTY into
`input`; if anything was read hand the new slice to `recorder.input` and
re-register the master for READABLE|WRITABLE. -/
def ttyReadable (s : CopyState) (e : TtyEvent) : List Effect × CopyState :=
  if e.readable then
    let r := read_all e.readTrace 0 s.input
    if 0 < r.1 then
      ([.recInput (r.2.drop s.input.length), .reregMaster true], ⟨r.2, s.output, s.flush⟩)
    else ([], ⟨r.2, s.output, s.flush⟩)
  else ([], s)

/-- The TTY arm of the dispatch: writable (which may return), then
readable, then `is_read_closed()`, which deregisters the TTY and
returns. -/
def stepTty (s : CopyState) (e : TtyEvent) : List Effect × StepResult :=
  match ttyWritable s e with
  | (effs1, .done s1 r) => (effs1, .done s1 r)
  | (effs1, .crashed) => (effs1, .crashed)
  | (effs1, .cont s1) =>
    let p2 := ttyReadable s1 e
    if e.readClosed then (effs1 ++ p2.1 ++ [.deregTty], .done p2.2 .ttyClosed)
    else (effs1 ++ p2.1, .cont p2.2)

/-- Handling of one pending signal: WINCH re-queries the TTY size with
overrides, pushes it into the PTY master (`set_pty_size`) and only then
calls `recorder.resize`; INT is ignored; TERM, QUIT and HUP SIGTERM the
child and return (the `Bool` marks the fatal case); others are
ignored. -/
def signalStep (ov : Option Nat × Option Nat) (sig : Sig) : List Effect × Bool :=
  match sig with
  | .winch q =>
    let sz := get_tty_size q ov
    ([.setPtySize sz, .recResize sz], false)
  | .int => ([], false)
  | .term => ([.killChildTerm], true)
  | .quit => ([.killChildTerm], true)
  | .hup => ([.killChildTerm], true)
  | .other => ([], false)

/-- The `for signal in signals.pending()` loop: process signals in order,
stopping at the first fatal one. -/
def signalsStep (ov : Option Nat × Option Nat) : List Sig → List Effect × Bool
  | [] => ([], false)
  | sig :: rest =>
    let p := signalStep ov sig
    if p.2 then (p.1, true)
    else
      let q := signalsStep ov rest
      (p.1 ++ q.1, q.2)

/-- Dispatch of one mio event by token, as in the `match event.token()`
of `copy`. -/
def stepEvent (ov : Option Nat × Option Nat) (s : CopyState) : Event → List Effect × StepResult
  | .master e => stepMaster s e
  | .tty e => stepTty s e
  | .signal sigs =>
    let p := signalsStep ov sigs
    if p.2 then (p.1, .done s .fatalSignal) else (p.1, .cont s)

/-- The `for event in events.iter()` loop: process the batch in order;
a `return` inside the loop abandons the remaining events. -/
def stepBatch (ov : Option Nat × Option Nat) : List Event → CopyState → List Effect × StepResult
  | [], s => ([], .cont s)
  | e :: rest, s =>
    match stepEvent ov s e with
    | (effs, .cont s1) =>
      let r := stepBatch ov rest s1
      (effs ++ r.1, r.2)
    | (effs, .done s1 reason) => (effs, .done s1 reason)
    | (effs, .crashed) => (effs, .crashed)

/-- Outcome of one `poll.poll(&mut events, None)` call: a batch of ready
events, `Err` of kind `Interrupted`, or any other poll error. -/
inductive PollOutcome
  | ready (events : List Event)
  | interrupted
  | failed
  deriving DecidableEq, Repr

/-- How a modelled run of the `copy` loop ended: one of the `return
Ok(())` statements, the `bail!` on a non-EINTR poll error, the slice
panic, or still running when the modelled poll trace ends. -/
inductive RunResult
  | returned (s : CopyState) (r : ExitReason)
  | pollError (s : CopyState)
  | crashed
  | running (s : CopyState)
  deriving DecidableEq, Repr

/-- The outer `loop` of `copy`: poll, retry on EINTR, `bail!` on any
other poll error, otherwise process the batch of events. -/
def copyRun (ov : Option Nat × Option Nat) : List PollOutcome → CopyState → List Effect × RunResult
  | [], s => ([], .running s)
  | .interrupted :: rest, s => copyRun ov rest s
  | .failed :: _, s => ([], .pollError s)
  | .ready evs :: rest, s =>
    match stepBatch ov evs s with
    | (effs, .cont s1) =>
      let r := copyRun ov rest s1
      (effs ++ r.1, r.2)
    | (effs, .done s1 reason) => (effs, .returned s1 reason)
    | (effs, .crashed) => (effs, .crashed)

/-- The `recorder.output` payloads among a list of effects, in order. -/
def outputCalls (l : List Effect) : List (List Nat) :=
  l.filterMap fun e =>
    match e with
    | .recOutput d => some d
    | _ => none

/-- Checker for the resize ordering invariant, carrying the size of the
immediately preceding `setPtySize` effect, if any: every `recResize sz`
must be directly preceded by `setPtySize sz`. -/
def auxGuard : Option (Nat × Nat) → List Effect → Bool
  | p, .recResize sz :: rest => (p == some sz) && auxGuard none rest
  | _, .setPtySize sz :: rest => auxGuard (some sz) rest
  | _, _ :: rest => auxGuard none rest
  | _, [] => true

/-- An effect list is resize-guarded when every `recResize` is directly
preceded by a `setPtySize` of the same size. -/
def resizeGuarded (l : List Effect) : Bool := auxGuard none l

/-- The checker state left after scanning a list of effects. -/
def outState : Option (Nat × Nat) → List Effect → Option (Nat × Nat)
  | p, [] => p
  | _, .setPtySize sz :: rest => outState (some sz) rest
  | _, _ :: rest => outState none rest

/-- An effect list is guard-safe when it passes the resize checker and
leaves it outside a `setPtySize` (so lists can be concatenated). -/
def guardSafe (l : List Effect) : Prop :=
  auxGuard none l = true ∧ outState none l = none

/-- A step of `fn exec` observable to the caller or the recorder: the
`recorder.start` call with its size argument, and the `forkpty` call. -/
inductive ExecAction
  | recStart (size : Nat × Nat)
  | fork
  deriving DecidableEq, Repr

/-- `fn exec` of src/pty.rs up to the fork: `open_tty()?` (failure
modelled by `ttyOk = false`), `get_tty_size` on the TTY with the
override, `recorder.start((ws_col, ws_row))?` (failure modelled by
`startOk = false`), then `forkpty(Some(&winsize), None)?` (failure
modelled by `forkOk = false`).  Returns the trace of performed actions
and whether the parent arm is reached. -/
def exec (ttyOk : Bool) (query : Option (Nat × Nat)) (ov : Option Nat × Option Nat)
    (startOk : Bool) (forkOk : Bool) : List ExecAction × Except Unit Unit :=
  if ttyOk = false then ([], .error ())
  else
    let sz := get_tty_size query ov
    if startOk = false then ([.recStart sz], .error ())
    else if forkOk = false then ([.recStart sz, .fork], .error ())
    else ([.recStart sz, .fork], .ok ())

/-- Whether an exec action is the `recorder.start` call. -/
def isStart : ExecAction → Bool
  | .recStart _ => true
  | .fork => false

/-- The `wait::waitpid` outcome as matched by `handle_parent`: child
exited with a status, child killed by a signal (the numeric signal
value), or any other `WaitStatus` variant. -/
inductive WaitStatus
  | exited (pid : Nat) (status : Nat)
  | signaled (pid : Nat) (sig : Nat)
  | other
  deriving DecidableEq, Repr

/-- The `anyhow::Result<i32>` of `handle_parent`: an exit code or an
error. -/
inductive ParentResult
  | code (n : Nat)
  | err
  deriving DecidableEq, Repr

/-- `fn handle_parent` of src/pty.rs after `copy` and `waitpid` have both
run: `copy_result?` propagates a copy error first; otherwise
`Exited(_, status)` maps to `status`, `Signaled(_, signal, ..)` to
`128 + signal`, any other `Ok` status to `1`, and a `waitpid` error is
propagated. -/
def handle_parent (copyResult : Except Unit Unit) (waitResult : Except Unit WaitStatus) :
    ParentResult :=
  match copyResult with
  | .error _ => .err
  | .ok _ =>
    match waitResult with
    | .ok (.exited _ status) => .code status
    | .ok (.signaled _ sig) => .code (128 + sig)
    | .ok .other => .code 1
    | .error _ => .err

end Pty

namespace Main

/-- The `fs::OpenOptions` flags assembled by the record arm of `fn main`
in src/main.rs. -/
structure OpenFlags where
  write : Bool
  append : Bool
  create : Bool
  createNew : Bool
  truncate : Bool
  deriving DecidableEq, Repr

/-- The `io::Error` kinds the modelled open can produce. -/
inductive IoErrorKind
  | alreadyExists
  | notFound
  deriving DecidableEq, Repr

/-- Errors of the modelled record start.  `fileConflict` is the dedicated
error the spec mandates for an existing non-empty destination without
append/overwrite; the code never constructs it (the source only has a
TODO comment there), so it exists here only to state that claim. -/
inductive RecordError
  | fileConflict
  | ioError (k : IoErrorKind)
  deriving DecidableEq, Repr

/-- The flag-adjustment block of the record arm: if the file exists and
is empty, force `overwrite = true` and `append = false`; if it exists
non-empty, leave both flags as supplied (the TODO'd conflict check emits
nothing); if it does not exist, clear `append`.  Returns the final
`(append, overwrite)` pair. -/
def resolveFlags (exists_ : Bool) (len : Nat) (append overwrite : Bool) : Bool × Bool :=
  if exists_ then
    if len = 0 then (false, true)
    else (append, overwrite)
  else (false, overwrite)

/-- The `OpenOptions` built from the final flags: `.write(true)
.append(append).create(overwrite).create_new(!overwrite && !append)
.truncate(overwrite)`. -/
def openFlags (append overwrite : Bool) : OpenFlags :=
  ⟨true, append, overwrite, !overwrite && !append, overwrite⟩

/-- Kernel semantics of `OpenOptions::open` for the flags the record arm
can build: `create_new` fails with `AlreadyExists` on an existing file
and otherwise creates; without it an existing file opens, a missing one
is created only under `create`, else `NotFound`.  Returns whether the
file was created. -/
def openFile (exists_ : Bool) (f : OpenFlags) : Except IoErrorKind Bool :=
  if f.createNew then
    if exists_ then .error .alreadyExists else .ok true
  else if exists_ then .ok false
  else if f.create then .ok true
  else .error .notFound

/-- Modelled from the spec: the event-log writer's time offset.  The
probing of an existing file's duration (`asciicast::get_duration`, in the
format module absent from src/) yields `probed`; per §4.F it is consulted
only in append mode, and the raw writer has no time base. -/
def timeOffset (raw append : Bool) (probed : Nat) : Nat :=
  if raw then 0 else if append then probed else 0

/-- Modelled from the spec: whether the header line is written at
`start`.  Per §4.F the event-log writer emits the header exactly when not
in append mode, and the raw writer (whose `start` is a no-op) never
does. -/
def headerEmitted (raw append : Bool) : Bool := !raw && !append

/-- The observable configuration of a record session after the file has
been opened: the final append flag, whether the file was created, whether
it was truncated, the event-log time offset and whether the header is
emitted. -/
structure SessionConfig where
  appendFinal : Bool
  created : Bool
  truncated : Bool
  offset : Nat
  header : Bool
  deriving DecidableEq, Repr

/-- The record arm of `fn main` from the existence check to the writer
construction: adjust the flags, open the file (errors propagate as I/O
errors), and derive the session configuration. -/
def recordSetup (exists_ : Bool) (len : Nat) (append overwrite raw : Bool) (probed : Nat) :
    Except RecordError SessionConfig :=
  let fl := resolveFlags exists_ len append overwrite
  match openFile exists_ (openFlags fl.1 fl.2) with
  | .error k => .error (.ioError k)
  | .ok created =>
    .ok ⟨fl.1, created, fl.2, timeOffset raw fl.1 probed, headerEmitted raw fl.1⟩

end Main

namespace Pty

theorem read_all_eq (t : List ReadResult) : ∀ (read : Nat) (out : List Nat),
    read_all t read out = (read + (successBytes t).length, out ++ successBytes t) := by
  induction t with
  | nil => intro read out; simp [read_all, successBytes]
  | cons hd rest ih =>
    intro read out
    cases hd with
    | ok bs =>
      cases bs with
      | nil => simpa [read_all, successBytes] using ih read out
      | cons b bs =>
        simp [read_all, successBytes, ih, Nat.add_assoc, List.append_assoc]
        omega
    | err k => simp [read_all, successBytes]

theorem write_go_suffix (t : List WriteResult) : ∀ (buf res : List Nat),
    write_go t buf = some res → ∃ k, k ≤ buf.length ∧ res = buf.drop k := by
  induction t with
  | nil =>
    intro buf res h
    exact ⟨0, Nat.zero_le _, ((Option.some.injEq _ _).mp h).symm⟩
  | cons hd rest ih =>
    intro buf res h
    cases hd with
    | ok n =>
      cases n with
      | zero => exact ih buf res (by simpa [write_go] using h)
      | succ m =>
        rw [write_go] at h
        split at h
        · rename_i hle
          split at h
          · exact ⟨m + 1, hle, ((Option.some.injEq _ _).mp h).symm⟩
          · obtain ⟨k, hk, hres⟩ := ih _ _ h
            refine ⟨k + (m + 1), ?_, ?_⟩
            · have hlen : (buf.drop (m + 1)).length = buf.length - (m + 1) :=
                List.length_drop _ _
              omega
            · rw [hres, List.drop_drop, Nat.add_comm (m + 1) k]
        · exact absurd h (by simp)
    | err k =>
      exact ⟨0, Nat.zero_le _, by simpa [write_go] using ((Option.some.injEq _ _).mp h).symm⟩

theorem write_all_zero (t : List WriteResult) (d rest : List Nat)
    (h : write_all t d = some (0, rest)) : rest = [] := by
  unfold write_all at h
  cases hw : write_go t d with
  | none => rw [hw] at h; simp at h
  | some buf =>
    rw [hw] at h
    dsimp only at h
    by_cases hb : buf.length = 0
    · rw [if_pos hb] at h
      exact (((Prod.mk.injEq _ _ _ _).mp ((Option.some.injEq _ _).mp h)).2).symm
    · rw [if_neg hb] at h
      exact absurd ((Prod.mk.injEq _ _ _ _).mp ((Option.some.injEq _ _).mp h)).1 hb

theorem outState_append (l1 l2 : List Effect) : ∀ p,
    outState p (l1 ++ l2) = outState (outState p l1) l2 := by
  induction l1 with
  | nil => intro p; rfl
  | cons hd rest ih => intro p; cases hd <;> simp [outState, ih]

theorem auxGuard_append (l1 l2 : List Effect) : ∀ p,
    auxGuard p (l1 ++ l2) = (auxGuard p l1 && auxGuard (outState p l1) l2) := by
  induction l1 with
  | nil => intro p; simp [auxGuard, outState]
  | cons hd rest ih => intro p; cases hd <;> simp [auxGuard, outState, ih, Bool.and_assoc]

theorem guardSafe_nil : guardSafe [] := ⟨rfl, rfl⟩

theorem guardSafe_append {l1 l2 : List Effect} (h1 : guardSafe l1) (h2 : guardSafe l2) :
    guardSafe (l1 ++ l2) := by
  obtain ⟨g1, o1⟩ := h1
  obtain ⟨g2, o2⟩ := h2
  constructor
  · rw [auxGuard_append, g1, o1, g2]; rfl
  · rw [outState_append, o1, o2]

theorem guardSafe_masterReadable (s : CopyState) (e : MasterEvent) :
    guardSafe (masterReadable s e).1 := by
  simp only [masterReadable]
  repeat' split
  all_goals exact ⟨rfl, rfl⟩

theorem guardSafe_masterWritable (s : CopyState) (e : MasterEvent) :
    guardSafe (masterWritable s e).1 := by
  simp only [masterWritable]
  repeat' split
  all_goals exact ⟨rfl, rfl⟩

theorem guardSafe_stepMaster (s : CopyState) (e : MasterEvent) :
    guardSafe (stepMaster s e).1 := by
  have h1 := guardSafe_masterReadable s e
  have h2 := guardSafe_masterWritable (masterReadable s e).2 e
  simp only [stepMaster]
  split
  · rename_i effs2 heq
    rw [heq] at h2
    exact guardSafe_append h1 h2
  · rename_i effs2 s2 heq
    rw [heq] at h2
    split
    · split
      · exact guardSafe_append (guardSafe_append h1 h2) ⟨rfl, rfl⟩
      · exact guardSafe_append (guardSafe_append h1 h2) ⟨rfl, rfl⟩
    · exact guardSafe_append h1 h2

theorem guardSafe_ttyWritable (s : CopyState) (e : TtyEvent) :
    guardSafe (ttyWritable s e).1 := by
  simp only [ttyWritable]
  repeat' split
  all_goals exact ⟨rfl, rfl⟩

theorem guardSafe_ttyReadable (s : CopyState) (e : TtyEvent) :
    guardSafe (ttyReadable s e).1 := by
  simp only [ttyReadable]
  repeat' split
  all_goals exact ⟨rfl, rfl⟩

theorem guardSafe_stepTty (s : CopyState) (e : TtyEvent) :
    guardSafe (stepTty s e).1 := by
  have h1 := guardSafe_ttyWritable s e
  simp only [stepTty]
  split
  · rename_i effs1 s1 r heq
    rw [heq] at h1
    exact h1
  · rename_i effs1 heq
    rw [heq] at h1
    exact h1
  · rename_i effs1 s1 heq
    rw [heq] at h1
    have h2 := guardSafe_ttyReadable s1 e
    split
    · exact guardSafe_append (guardSafe_append h1 h2) ⟨rfl, rfl⟩
    · exact guardSafe_append h1 h2

theorem guardSafe_signalStep (ov : Option Nat × Option Nat) (sig : Sig) :
    guardSafe (signalStep ov sig).1 := by
  cases sig with
  | winch q =>
    constructor
    · simp [signalStep, auxGuard]
    · rfl
  | int => exact ⟨rfl, rfl⟩
  | term => exact ⟨rfl, rfl⟩
  | quit => exact ⟨rfl, rfl⟩
  | hup => exact ⟨rfl, rfl⟩
  | other => exact ⟨rfl, rfl⟩

theorem guardSafe_signalsStep (ov : Option Nat × Option Nat) (sigs : List Sig) :
    guardSafe (signalsStep ov sigs).1 := by
  induction sigs with
  | nil => exact guardSafe_nil
  | cons sig rest ih =>
    have h1 := guardSafe_signalStep ov sig
    simp only [signalsStep]
    split
    · exact h1
    · exact guardSafe_append h1 ih

theorem guardSafe_stepEvent (ov : Option Nat × Option Nat) (s : CopyState) (ev : Event) :
    guardSafe (stepEvent ov s ev).1 := by
  cases ev with
  | master e => exact guardSafe_stepMaster s e
  | tty e => exact guardSafe_stepTty s e
  | signal sigs =>
    have h1 := guardSafe_signalsStep ov sigs
    simp only [stepEvent]
    split
    · exact h1
    · exact h1

theorem guardSafe_stepBatch (ov : Option Nat × Option Nat) (evs : List Event) :
    ∀ s, guardSafe (stepBatch ov evs s).1 := by
  induction evs with
  | nil => intro s; exact guardSafe_nil
  | cons e rest ih =>
    intro s
    have h1 := guardSafe_stepEvent ov s e
    simp only [stepBatch]
    split
    · rename_i effs s1 heq
      rw [heq] at h1
      exact guardSafe_append h1 (ih s1)
    · rename_i effs s1 r heq
      rw [heq] at h1
      exact h1
    · rename_i effs heq
      rw [heq] at h1
      exact h1

theorem guardSafe_copyRun (ov : Option Nat × Option Nat) (polls : List PollOutcome) :
    ∀ s, guardSafe (copyRun ov polls s).1 := by
  induction polls with
  | nil => intro s; exact guardSafe_nil
  | cons p rest ih =>
    intro s
    cases p with
    | interrupted => exact ih s
    | failed => exact guardSafe_nil
    | ready evs =>
      have h1 := guardSafe_stepBatch ov evs s
      simp only [copyRun]
      split
      · rename_i effs s1 heq
        rw [heq] at h1
        exact guardSafe_append h1 (ih s1)
      · rename_i effs s1 r heq
        rw [heq] at h1
        exact h1
      · rename_i effs heq
        rw [heq] at h1
        exact h1

theorem stepMaster_done (s : CopyState) (e : MasterEvent) (effs : List Effect)
    (s1 : CopyState) (r : ExitReason) (h : stepMaster s e = (effs, .done s1 r)) :
    r = .masterClosed ∧ s1.output = [] := by
  simp only [stepMaster] at h
  split at h
  · simp at h
  · rename_i effs2 s2 heq
    split at h
    · split at h
      · rename_i hempty
        obtain ⟨-, hd⟩ := (Prod.mk.injEq _ _ _ _).mp h
        obtain ⟨hs, hr⟩ := (StepResult.done.injEq _ _ _ _).mp hd
        refine ⟨hr.symm, ?_⟩
        rw [← hs]
        exact List.isEmpty_iff.mp hempty
      · simp at h
    · simp at h

theorem ttyWritable_done (s : CopyState) (e : TtyEvent) (effs : List Effect)
    (s1 : CopyState) (r : ExitReason) (h : ttyWritable s e = (effs, .done s1 r)) :
    r = .ttyFlushed ∧ s1.output = [] := by
  simp only [ttyWritable] at h
  split at h
  · split at h
    · simp at h
    · rename_i left rest heq
      split at h
      · rename_i hleft
        split at h
        · obtain ⟨-, hd⟩ := (Prod.mk.injEq _ _ _ _).mp h
          obtain ⟨hs, hr⟩ := (StepResult.done.injEq _ _ _ _).mp hd
          refine ⟨hr.symm, ?_⟩
          rw [← hs]
          subst hleft
          exact write_all_zero _ _ _ heq
        · simp at h
      · simp at h
  · simp at h

theorem stepTty_done (s : CopyState) (e : TtyEvent) (effs : List Effect)
    (s1 : CopyState) (r : ExitReason) (h : stepTty s e = (effs, .done s1 r)) :
    (r = .ttyFlushed ∧ s1.output = []) ∨ r = .ttyClosed := by
  simp only [stepTty] at h
  split at h
  · rename_i effs1 s2 r2 heq
    obtain ⟨-, hd⟩ := (Prod.mk.injEq _ _ _ _).mp h
    obtain ⟨hs, hr⟩ := (StepResult.done.injEq _ _ _ _).mp hd
    left
    have := ttyWritable_done s e effs1 s2 r2 heq
    rw [hs, hr] at this
    exact this
  · simp at h
  · rename_i effs1 s2 heq
    split at h
    · obtain ⟨-, hd⟩ := (Prod.mk.injEq _ _ _ _).mp h
      obtain ⟨-, hr⟩ := (StepResult.done.injEq _ _ _ _).mp hd
      exact Or.inr hr.symm
    · simp at h

theorem stepEvent_done (ov : Option Nat × Option Nat) (s : CopyState) (ev : Event)
    (effs : List Effect) (s1 : CopyState) (r : ExitReason)
    (h : stepEvent ov s ev = (effs, .done s1 r))
    (hr : r = .masterClosed ∨ r = .ttyFlushed) : s1.output = [] := by
  cases ev with
  | master e => exact (stepMaster_done s e effs s1 r h).2
  | tty e =>
    rcases stepTty_done s e effs s1 r h with ⟨-, hout⟩ | hc
    · exact hout
    · subst hc
      rcases hr with hr | hr <;> exact absurd hr (by simp)
  | signal sigs =>
    simp only [stepEvent] at h
    split at h
    · obtain ⟨-, hd⟩ := (Prod.mk.injEq _ _ _ _).mp h
      obtain ⟨-, hfr⟩ := (StepResult.done.injEq _ _ _ _).mp hd
      rw [← hfr] at hr
      rcases hr with hr | hr <;> exact absurd hr (by simp)
    · simp at h

theorem stepBatch_done (ov : Option Nat × Option Nat) (evs : List Event) :
    ∀ (s : CopyState) (effs : List Effect) (s1 : CopyState) (r : ExitReason),
      stepBatch ov evs s = (effs, .done s1 r) →
      (r = .masterClosed ∨ r = .ttyFlushed) → s1.output = [] := by
  induction evs with
  | nil =>
    intro s effs s1 r h hr
    simp [stepBatch] at h
  | cons e rest ih =>
    intro s effs s1 r h hr
    simp only [stepBatch] at h
    split at h
    · rename_i effs0 s0 heq
      obtain ⟨-, hd⟩ := (Prod.mk.injEq _ _ _ _).mp h
      exact ih s0 (stepBatch ov rest s0).1 s1 r (by rw [← hd]) hr
    · rename_i effs0 s0 r0 heq
      obtain ⟨-, hd⟩ := (Prod.mk.injEq _ _ _ _).mp h
      obtain ⟨hs, hr0⟩ := (StepResult.done.injEq _ _ _ _).mp hd
      rw [← hs]
      exact stepEvent_done ov s e effs0 s0 r0 heq (by rw [hr0]; exact hr)
    · simp at h

theorem copyRun_done (ov : Option Nat × Option Nat) (polls : List PollOutcome) :
    ∀ (s : CopyState) (effs : List Effect) (s1 : CopyState) (r : ExitReason),
      copyRun ov polls s = (effs, .returned s1 r) →
      (r = .masterClosed ∨ r = .ttyFlushed) → s1.output = [] := by
  induction polls with
  | nil =>
    intro s effs s1 r h hr
    simp [copyRun] at h
  | cons p rest ih =>
    intro s effs s1 r h hr
    cases p with
    | interrupted => exact ih s effs s1 r h hr
    | failed => simp [copyRun] at h
    | ready evs =>
      simp only [copyRun] at h
      split at h
      · rename_i effs0 s0 heq
        obtain ⟨-, hd⟩ := (Prod.mk.injEq _ _ _ _).mp h
        exact ih s0 (copyRun ov rest s0).1 s1 r (by rw [← hd]) hr
      · rename_i effs0 s0 r0 heq
        obtain ⟨-, hd⟩ := (Prod.mk.injEq _ _ _ _).mp h
        obtain ⟨hs, hr0⟩ := (RunResult.returned.injEq _ _ _ _).mp hd
        rw [← hs]
        exact stepBatch_done ov evs s effs0 s0 r0 heq (by rw [hr0]; exact hr)
      · simp at h

theorem outputCalls_append (l1 l2 : List Effect) :
    outputCalls (l1 ++ l2) = outputCalls l1 ++ outputCalls l2 :=
  List.filterMap_append _ _ _

theorem outputCalls_masterReadable (s : CopyState) (e : MasterEvent) :
    outputCalls (masterReadable s e).1 =
      if e.readable = true ∧ successBytes e.readTrace ≠ [] then [successBytes e.readTrace]
      else [] := by
  rcases e with ⟨red, rt, w, wt, rc⟩
  cases red
  · simp [masterReadable, outputCalls]
  · simp only [masterReadable, read_all_eq, Nat.zero_add]
    by_cases hsb : successBytes rt = []
    · simp [hsb, outputCalls]
    · have hpos : 0 < (successBytes rt).length := List.length_pos.mpr hsb
      simp [hpos, hsb, outputCalls, List.drop_left]

theorem outputCalls_masterWritable (s : CopyState) (e : MasterEvent) :
    outputCalls (masterWritable s e).1 = [] := by
  simp only [masterWritable]
  repeat' split
  all_goals rfl

theorem outputCalls_stepMaster (s : CopyState) (e : MasterEvent) :
    outputCalls (stepMaster s e).1 =
      if e.readable = true ∧ successBytes e.readTrace ≠ [] then [successBytes e.readTrace]
      else [] := by
  have h1 := outputCalls_masterReadable s e
  have h2 := outputCalls_masterWritable (masterReadable s e).2 e
  simp only [stepMaster]
  split
  · rename_i effs2 heq
    rw [heq] at h2
    rw [outputCalls_append, h1, h2, List.append_nil]
  · rename_i effs2 s2 heq
    rw [heq] at h2
    split
    · split
      · rw [outputCalls_append, outputCalls_append, h1, h2]
        simp [outputCalls]
      · rw [outputCalls_append, outputCalls_append, h1, h2]
        simp [outputCalls]
    · rw [outputCalls_append, h1, h2, List.append_nil]

theorem outputCalls_ttyWritable (s : CopyState) (e : TtyEvent) :
    outputCalls (ttyWritable s e).1 = [] := by
  simp only [ttyWritable]
  repeat' split
  all_goals rfl

theorem outputCalls_ttyReadable (s : CopyState) (e : TtyEvent) :
    outputCalls (ttyReadable s e).1 = [] := by
  simp only [ttyReadable]
  repeat' split
  all_goals rfl

theorem outputCalls_stepTty (s : CopyState) (e : TtyEvent) :
    outputCalls (stepTty s e).1 = [] := by
  have h1 := outputCalls_ttyWritable s e
  simp only [stepTty]
  split
  · rename_i effs1 s1 r heq
    rw [heq] at h1
    exact h1
  · rename_i effs1 heq
    rw [heq] at h1
    exact h1
  · rename_i effs1 s1 heq
    rw [heq] at h1
    have h2 := outputCalls_ttyReadable s1 e
    split
    · rw [outputCalls_append, outputCalls_append, h1, h2]
      rfl
    · rw [outputCalls_append, h1, h2]
      rfl

theorem outputCalls_signalsStep (ov : Option Nat × Option Nat) (sigs : List Sig) :
    outputCalls (signalsStep ov sigs).1 = [] := by
  induction sigs with
  | nil => rfl
  | cons sig rest ih =>
    have h1 : outputCalls (signalStep ov sig).1 = [] := by
      cases sig <;> rfl
    simp only [signalsStep]
    split
    · exact h1
    · rw [outputCalls_append, h1, ih]
      rfl

theorem read_all_err_irrelevant (t1 : List ReadResult) :
    ∀ (k k' : ErrKind) (t2 t2' : List ReadResult) (read : Nat) (out : List Nat),
      read_all (t1 ++ .err k :: t2) read out = read_all (t1 ++ .err k' :: t2') read out := by
  induction t1 with
  | nil => intro k k' t2 t2' read out; rfl
  | cons hd rest ih =>
    intro k k' t2 t2' read out
    cases hd with
    | ok bs =>
      cases bs with
      | nil =>
        simp only [List.cons_append, read_all]
        exact ih k k' t2 t2' read out
      | cons b bs =>
        simp only [List.cons_append, read_all]
        exact ih k k' t2 t2' _ _
    | err k0 => rfl

theorem write_go_err_irrelevant (t1 : List WriteResult) :
    ∀ (k k' : ErrKind) (t2 t2' : List WriteResult) (buf : List Nat),
      write_go (t1 ++ .err k :: t2) buf = write_go (t1 ++ .err k' :: t2') buf := by
  induction t1 with
  | nil => intro k k' t2 t2' buf; rfl
  | cons hd rest ih =>
    intro k k' t2 t2' buf
    cases hd with
    | ok n =>
      cases n with
      | zero =>
        simp only [List.cons_append, write_go]
        exact ih k k' t2 t2' buf
      | succ m =>
        simp only [List.cons_append, write_go]
        split
        · split
          · rfl
          · exact ih k k' t2 t2' _
        · rfl
    | err k0 => rfl

/-- C1, counterexample: the claim says every return path of the copy loop
has drained `pending_to_tty` (`output`).  In this run the master delivers
the byte `120` (queued for the TTY, handed to `recorder.output`), then a
SIGTERM arrives: the loop SIGTERMs the child and returns with `output`
still holding the byte — the fatal-signal path drains nothing. -/
theorem copy_fatal_signal_abandons_output :
    copyRun (none, none)
        [.ready [.master ⟨true, [.ok [120], .err .wouldBlock], false, [], false⟩,
          .signal [.term]]] initCopyState =
      ([.recOutput [120], .reregTty true, .killChildTerm],
        .returned ⟨[], [120], false⟩ .fatalSignal) ∧
    ([120] : List Nat) ≠ [] :=
  ⟨by decide, by decide⟩

/-- C1, amended: only the master-side shutdown paths guarantee the drain.
Whenever the copy loop returns because the master read-closed or because
the flush state completed (TTY drained), `pending_to_tty` is empty; the
fatal-signal and TTY-read-closed paths may abandon it (and
`pending_to_master` is abandoned on every path). -/
theorem copy_output_drained_on_master_paths (ov : Option Nat × Option Nat)
    (polls : List PollOutcome) (s : CopyState) (effs : List Effect) (s1 : CopyState)
    (r : ExitReason) (h : copyRun ov polls s = (effs, .returned s1 r))
    (hr : r = .masterClosed ∨ r = .ttyFlushed) : s1.output = [] :=
  copyRun_done ov polls s effs s1 r h hr

/-- Witness for C1's amended theorem: a run that returns on the
master-read-closed path, whose final state has an empty `output`. -/
theorem copy_output_drained_witness : (CopyState.mk [] [] false).output = [] :=
  copy_output_drained_on_master_paths (none, none)
    [.ready [.master ⟨false, [], false, [], true⟩]] initCopyState
    [.deregMaster] ⟨[], [], false⟩ .masterClosed (by decide) (Or.inl rfl)

/-- C2: with `copy` having succeeded, `handle_parent` maps
`Exited(_, n)` to exit code `n`, `Signaled(_, s, ..)` to `128 + s`, and
any other wait status to `1`. -/
theorem handle_parent_exit_mapping :
    ∀ (pid status sig : Nat),
      handle_parent (.ok ()) (.ok (.exited pid status)) = .code status ∧
      handle_parent (.ok ()) (.ok (.signaled pid sig)) = .code (128 + sig) ∧
      handle_parent (.ok ()) (.ok .other) = .code 1 :=
  fun _ _ _ => ⟨rfl, rfl, rfl⟩

/-- C3, counterexample: the claim says `read_all` terminates as soon as a
read returns zero.  On the trace zero-read, one-byte read, would-block,
the source's `read_all` keeps reading past the zero read (total 1, byte
97 appended), while the claimed behaviour (`read_all_spec`) stops at the
zero read with nothing appended. -/
theorem read_all_zero_read_cx :
    read_all [.ok [], .ok [97], .err .wouldBlock] 0 [] = (1, [97]) ∧
    read_all_spec [.ok [], .ok [97], .err .wouldBlock] 0 [] = (0, []) ∧
    read_all [.ok [], .ok [97], .err .wouldBlock] 0 [] ≠
      read_all_spec [.ok [], .ok [97], .err .wouldBlock] 0 [] :=
  ⟨by decide, by decide, by decide⟩

/-- C3, amended: `read_all` terminates only when a read returns an error
(any error, including would-block); a zero-byte read is skipped and the
loop continues.  It appends the bytes of every successful read before the
first error to `out` in order and returns their total count. -/
theorem read_all_appends_until_error :
    ∀ (t : List ReadResult) (read : Nat) (out : List Nat),
      read_all t read out = (read + (successBytes t).length, out ++ successBytes t) :=
  read_all_eq

/-- C4: when `write_all` returns `left` with compacted queue `rest`, the
queue holds exactly the unwritten suffix of the original bytes in their
original order, and `left` is the number of bytes remaining. -/
theorem write_all_unwritten_suffix (t : List WriteResult) (d : List Nat) (left : Nat)
    (rest : List Nat) (h : write_all t d = some (left, rest)) :
    rest = d.drop (d.length - left) ∧ rest.length = left ∧ left ≤ d.length := by
  unfold write_all at h
  cases hw : write_go t d with
  | none => rw [hw] at h; simp at h
  | some buf =>
    rw [hw] at h
    dsimp only at h
    obtain ⟨k, hk, hbuf⟩ := write_go_suffix t d buf hw
    by_cases hb : buf.length = 0
    · rw [if_pos hb] at h
      obtain ⟨h1, h2⟩ := (Prod.mk.injEq _ _ _ _).mp ((Option.some.injEq _ _).mp h)
      rw [← h2, ← h1]
      refine ⟨?_, rfl, Nat.zero_le _⟩
      rw [Nat.sub_zero, List.drop_length]
    · rw [if_neg hb] at h
      obtain ⟨h1, h2⟩ := (Prod.mk.injEq _ _ _ _).mp ((Option.some.injEq _ _).mp h)
      have hlen : buf.length = d.length - k := by rw [hbuf]; exact List.length_drop _ _
      have hkd : d.length - buf.length = k := by omega
      have hrot : d.rotate k = d.drop k ++ d.take k :=
        List.rotate_eq_drop_append_take hk
      have hrest : rest = buf := by
        rw [← h2, hkd, hrot, hbuf, List.take_left]
      refine ⟨?_, ?_, ?_⟩
      · rw [hrest, hbuf, ← h1, hkd]
      · rw [hrest, h1]
      · omega

/-- Witness for C4 at the trace that writes 2 bytes of a 5-byte queue and
then would-blocks: the queue is compacted to the last three bytes. -/
theorem write_all_unwritten_suffix_witness :
    ([3, 4, 5] : List Nat) =
      [1, 2, 3, 4, 5].drop (([1, 2, 3, 4, 5] : List Nat).length - 3) ∧
    ([3, 4, 5] : List Nat).length = 3 ∧ 3 ≤ ([1, 2, 3, 4, 5] : List Nat).length :=
  write_all_unwritten_suffix [.ok 2, .err .wouldBlock] [1, 2, 3, 4, 5] 3 [3, 4, 5]
    (by decide)

/-- C5, counterexample: the claim says an unrecoverable read error on the
master aborts the reactor and surfaces the error.  In this run the master
read fails with a fatal (non-EINTR, non-would-block) error, yet the loop
carries on and later returns success on the master-closed path — the
error is swallowed inside `read_all`. -/
theorem fatal_read_error_not_surfaced :
    copyRun (none, none)
        [.ready [.master ⟨true, [.err .fatal], false, [], false⟩],
          .ready [.master ⟨false, [], false, [], true⟩]] initCopyState =
      ([.deregMaster], .returned ⟨[], [], false⟩ .masterClosed) ∧
    RunResult.returned (⟨[], [], false⟩ : CopyState) .masterClosed ≠
      .pollError ⟨[], [], false⟩ :=
  ⟨by decide, by decide⟩

/-- C5, amended: read and write errors on master or TTY are never
surfaced: `read_all` and `write_go` are insensitive to the kind of the
error (and to anything after it) — would-block, EINTR and fatal errors
alike just end the drain.  Only the poll call discriminates: EINTR makes
the loop retry, any other poll error aborts the run. -/
theorem io_errors_swallowed :
    (∀ (t1 : List ReadResult) (k k' : ErrKind) (t2 t2' : List ReadResult) (read : Nat)
        (out : List Nat),
      read_all (t1 ++ .err k :: t2) read out = read_all (t1 ++ .err k' :: t2') read out) ∧
    (∀ (t1 : List WriteResult) (k k' : ErrKind) (t2 t2' : List WriteResult)
        (buf : List Nat),
      write_go (t1 ++ .err k :: t2) buf = write_go (t1 ++ .err k' :: t2') buf) ∧
    (∀ (ov : Option Nat × Option Nat) (rest : List PollOutcome) (s : CopyState),
      copyRun ov (.interrupted :: rest) s = copyRun ov rest s) ∧
    (∀ (ov : Option Nat × Option Nat) (rest : List PollOutcome) (s : CopyState),
      copyRun ov (.failed :: rest) s = ([], .pollError s)) :=
  ⟨read_all_err_irrelevant, write_go_err_irrelevant,
    fun _ _ _ => rfl, fun _ _ _ => rfl⟩

/-- C7, counterexample: the claim says every single kernel read yields
its own `recorder.output` call.  Here one readable event drains two
kernel reads (`ab` then `cd`) before would-block, and the recorder gets a
single `output` call with the concatenation, not two calls. -/
theorem per_read_output_cx :
    outputCalls
        (stepEvent (none, none) initCopyState
          (.master ⟨true, [.ok [97, 98], .ok [99, 100], .err .wouldBlock],
            false, [], false⟩)).1 =
      [[97, 98, 99, 100]] ∧
    ([[97, 98, 99, 100]] : List (List Nat)) ≠ [[97, 98], [99, 100]] :=
  ⟨by decide, by decide⟩

/-- C7, amended: each master-readable event produces at most one
`recorder.output` call, whose slice is the concatenation of all bytes
returned by the kernel reads of that drain, in read order (one call
exactly when some bytes were read); TTY and signal events never produce
`output` calls, so across events the calls follow the order of the
drains. -/
theorem output_per_drain_coalesced :
    (∀ (ov : Option Nat × Option Nat) (s : CopyState) (e : MasterEvent),
      outputCalls (stepEvent ov s (.master e)).1 =
        if e.readable = true ∧ successBytes e.readTrace ≠ []
        then [successBytes e.readTrace] else []) ∧
    (∀ (ov : Option Nat × Option Nat) (s : CopyState) (e : TtyEvent),
      outputCalls (stepEvent ov s (.tty e)).1 = []) ∧
    (∀ (ov : Option Nat × Option Nat) (s : CopyState) (sigs : List Sig),
      outputCalls (stepEvent ov s (.signal sigs)).1 = []) := by
  refine ⟨fun ov s e => outputCalls_stepMaster s e,
    fun ov s e => outputCalls_stepTty s e, fun ov s sigs => ?_⟩
  have h := outputCalls_signalsStep ov sigs
  simp only [stepEvent]
  split
  · exact h
  · exact h

/-- C8: when the TTY opens, `recorder.start` is called exactly once,
with the effective initial size (queried size with overrides applied);
if `start` fails, `exec` returns the error with no fork performed; and
whenever the fork is reached, it strictly follows the single `start`. -/
theorem exec_start_once_before_fork :
    ∀ (q : Option (Nat × Nat)) (ov : Option Nat × Option Nat) (startOk forkOk : Bool),
      ((exec true q ov startOk forkOk).1.filter isStart =
        [.recStart (get_tty_size q ov)]) ∧
      (startOk = false →
        exec true q ov startOk forkOk = ([.recStart (get_tty_size q ov)], .error ())) ∧
      (.fork ∈ (exec true q ov startOk forkOk).1 →
        (exec true q ov startOk forkOk).1 = [.recStart (get_tty_size q ov), .fork]) := by
  intro q ov so fo
  cases so with
  | false =>
    cases fo <;> exact ⟨rfl, fun _ => rfl, fun hmem => by simp [exec] at hmem⟩
  | true =>
    cases fo <;> exact ⟨rfl, fun hso => by simp at hso, fun _ => rfl⟩

/-- Witness for C8 with a failing `start`: no fork, the start error is
returned, and the recorded size is the `(80, 24)` fallback. -/
theorem exec_start_once_witness :
    exec true none (none, none) false true = ([.recStart (80, 24)], .error ()) :=
  (exec_start_once_before_fork none (none, none) false true).2.1 rfl

/-- C9: a SIGWINCH handler invocation emits exactly the `TIOCSWINSZ`
ioctl on the master followed by `recorder.resize`, both with the freshly
re-queried size with overrides applied; the query falls back to
`(80, 24)` when the ioctl fails; and in every run of the copy loop each
`resize` callback is immediately preceded by the master being set to that
same size. -/
theorem resize_fresh_and_guarded :
    (∀ (q : Option (Nat × Nat)) (ov : Option Nat × Option Nat),
      signalStep ov (.winch q) =
        ([.setPtySize (get_tty_size q ov), .recResize (get_tty_size q ov)], false)) ∧
    (∀ ov : Option Nat × Option Nat, get_tty_size none ov = (ov.1.getD 80, ov.2.getD 24)) ∧
    (∀ (c r : Nat) (ov : Option Nat × Option Nat),
      get_tty_size (some (c, r)) ov = (ov.1.getD c, ov.2.getD r)) ∧
    (∀ (ov : Option Nat × Option Nat) (polls : List PollOutcome) (s : CopyState),
      resizeGuarded (copyRun ov polls s).1 = true) :=
  ⟨fun _ _ => rfl, fun _ => rfl, fun _ _ _ => rfl,
    fun ov polls s => (guardSafe_copyRun ov polls s).1⟩

end Pty

namespace Main

/-- C6, counterexample: the claim says an existing non-empty destination
without append/overwrite fails with a dedicated `FileConflict` error.
The code does fail, but with the `AlreadyExists` I/O error produced by
`create_new` at open time — the `FileConflict` error is never
constructed (the source only has a TODO comment there). -/
theorem record_conflict_error_kind_cx :
    recordSetup true 1 false false false 0 = .error (.ioError .alreadyExists) ∧
    (Except.error RecordError.fileConflict :
        Except RecordError SessionConfig) ≠ .error (.ioError .alreadyExists) :=
  ⟨rfl, by simp⟩

/-- C6, amended: on record start, an existing empty destination behaves
as `--overwrite` (truncated, not created); an existing non-empty
destination with neither `--append` nor `--overwrite` fails, but with the
`AlreadyExists` I/O error of the `create_new` open rather than a
dedicated `FileConflict` error; a missing destination is created. -/
theorem record_file_semantics :
    (∀ (a o raw : Bool) (p : Nat),
      recordSetup true 0 a o raw p = .ok ⟨false, false, true, 0, !raw⟩) ∧
    (∀ (len : Nat) (raw : Bool) (p : Nat), 0 < len →
      recordSetup true len false false raw p = .error (.ioError .alreadyExists)) ∧
    (∀ (len : Nat) (o raw : Bool) (p : Nat),
      recordSetup false len true false raw p = .ok ⟨false, true, false, 0, !raw⟩ ∧
      recordSetup false len false o raw p = .ok ⟨false, true, o, 0, !raw⟩) := by
  refine ⟨?_, ?_, ?_⟩
  · intro a o raw p
    cases a <;> cases o <;> cases raw <;> rfl
  · intro len raw p hlen
    have hne : len ≠ 0 := Nat.pos_iff_ne_zero.mp hlen
    cases raw <;>
      simp [recordSetup, resolveFlags, hne, openFlags, openFile, timeOffset, headerEmitted]
  · intro len o raw p
    cases o <;> cases raw <;> exact ⟨rfl, rfl⟩

/-- Witness for C6's amended theorem: a 1-byte existing destination with
neither flag makes the open fail with `AlreadyExists`. -/
theorem record_file_semantics_witness :
    recordSetup true 1 false false false 0 = .error (.ioError .alreadyExists) :=
  record_file_semantics.2.1 1 false 0 (by decide)

/-- C10: with `--append` and a missing destination, the append flag is
silently cleared and the session is configured exactly like a fresh
recording: the file is created, the time offset is 0 regardless of any
probed duration, and the header is emitted (for the event-log writer). -/
theorem append_cleared_when_missing :
    ∀ (len : Nat) (o raw : Bool) (p : Nat),
      recordSetup false len true o raw p = recordSetup false len false o raw p ∧
      recordSetup false len true false raw p = .ok ⟨false, true, false, 0, !raw⟩ := by
  intro len o raw p
  refine ⟨rfl, ?_⟩
  cases raw <;> rfl

end Main
